import Mathlib

/-!
Shallow embedding of the interval-timer core of the rustyPromodo repository
(`src/timer.rs`).  Instants and durations are modelled as natural numbers on
a single relative monotone clock; `Instant::now()` becomes an explicit `now`
argument to each command and query.  Rust's `Instant::duration_since` and
`Instant::elapsed` saturate at zero, which matches truncated `Nat`
subtraction.
-/

/-- `TimerState` from `src/timer.rs`. -/
inductive TimerState where
  | Running
  | Paused
  | Stopped
deriving DecidableEq

/-- `TimerType` from `src/timer.rs`. -/
inductive TimerType where
  | Work
  | Break
deriving DecidableEq

/-- `PomodoroTimer` from `src/timer.rs`, with the same field names.
Durations and instants are `Nat`; optional instants are `Option Nat`. -/
structure PomodoroTimer where
  work_duration : Nat
  break_duration : Nat
  start_time : Option Nat
  pause_time : Option Nat
  elapsed_before_pause : Nat
  timer_type : TimerType
  state : TimerState
deriving DecidableEq

namespace PomodoroTimer

/-- `PomodoroTimer::new`. -/
def new (work_duration break_duration : Nat) : PomodoroTimer :=
  { work_duration := work_duration
    break_duration := break_duration
    start_time := none
    pause_time := none
    elapsed_before_pause := 0
    timer_type := TimerType.Work
    state := TimerState.Stopped }

/-- `PomodoroTimer::start`.  Note: the source does not touch `pause_time`. -/
def start (t : PomodoroTimer) (now : Nat) : PomodoroTimer :=
  { t with start_time := some now
           elapsed_before_pause := 0
           state := TimerState.Running }

/-- `PomodoroTimer::pause`. -/
def pause (t : PomodoroTimer) (now : Nat) : PomodoroTimer :=
  if t.state = TimerState.Running then
    { t with pause_time := some now, state := TimerState.Paused }
  else t

/-- `PomodoroTimer::resume`.  The inner `if let` of the source becomes a
match on the two optional instants; the state is set to `Running` in either
branch, exactly as in the source. -/
def resume (t : PomodoroTimer) (now : Nat) : PomodoroTimer :=
  if t.state = TimerState.Paused then
    match t.start_time, t.pause_time with
    | some s, some p =>
        { t with elapsed_before_pause := t.elapsed_before_pause + (p - s)
                 start_time := some now
                 pause_time := none
                 state := TimerState.Running }
    | _, _ => { t with state := TimerState.Running }
  else t

/-- `PomodoroTimer::reset`. -/
def reset (t : PomodoroTimer) (now : Nat) : PomodoroTimer :=
  let t' := { t with start_time := some now
                     pause_time := none
                     elapsed_before_pause := 0 }
  if t.state ≠ TimerState.Stopped then
    { t' with state := TimerState.Running }
  else t'

/-- `PomodoroTimer::switch_to_work`. -/
def switch_to_work (t : PomodoroTimer) (now : Nat) : PomodoroTimer :=
  reset { t with timer_type := TimerType.Work } now

/-- `PomodoroTimer::switch_to_break`. -/
def switch_to_break (t : PomodoroTimer) (now : Nat) : PomodoroTimer :=
  reset { t with timer_type := TimerType.Break } now

/-- `PomodoroTimer::elapsed`, with the current instant made explicit. -/
def elapsed (t : PomodoroTimer) (now : Nat) : Nat :=
  match t.state, t.start_time, t.pause_time with
  | TimerState.Running, some s, _ => t.elapsed_before_pause + (now - s)
  | TimerState.Paused, some s, some p => t.elapsed_before_pause + (p - s)
  | _, _, _ => t.elapsed_before_pause

/-- `PomodoroTimer::total_time`. -/
def total_time (t : PomodoroTimer) : Nat :=
  match t.timer_type with
  | TimerType.Work => t.work_duration
  | TimerType.Break => t.break_duration

/-- `PomodoroTimer::is_complete`. -/
def is_complete (t : PomodoroTimer) (now : Nat) : Bool :=
  decide (t.total_time ≤ t.elapsed now)

end PomodoroTimer

/-- States reachable from a fresh timer by any sequence of the commands
`start`, `pause`, `resume`, `reset`, `switch_to_work`, `switch_to_break`,
each invoked at an arbitrary instant. -/
inductive Reachable : PomodoroTimer → Prop where
  | new (wd bd : Nat) : Reachable (PomodoroTimer.new wd bd)
  | start (t : PomodoroTimer) (now : Nat) :
      Reachable t → Reachable (t.start now)
  | pause (t : PomodoroTimer) (now : Nat) :
      Reachable t → Reachable (t.pause now)
  | resume (t : PomodoroTimer) (now : Nat) :
      Reachable t → Reachable (t.resume now)
  | reset (t : PomodoroTimer) (now : Nat) :
      Reachable t → Reachable (t.reset now)
  | switch_to_work (t : PomodoroTimer) (now : Nat) :
      Reachable t → Reachable (t.switch_to_work now)
  | switch_to_break (t : PomodoroTimer) (now : Nat) :
      Reachable t → Reachable (t.switch_to_break now)

/-- Structural invariant maintained by every command: a timer that is not
stopped carries a start instant, and a paused timer carries a pause
instant. -/
def TimerInv (t : PomodoroTimer) : Prop :=
  (t.state ≠ TimerState.Stopped → t.start_time ≠ none) ∧
  (t.state = TimerState.Paused → t.pause_time ≠ none)

theorem timerInv_of_reachable {t : PomodoroTimer} (h : Reachable t) :
    TimerInv t := by
  induction h with
  | new wd bd => exact ⟨fun h => absurd rfl h, fun h => nomatch h⟩
  | start t now _ _ =>
      exact ⟨fun _ => by simp [PomodoroTimer.start], fun h => nomatch h⟩
  | pause t now _ ih =>
      rcases ih with ⟨ih1, ih2⟩
      by_cases hs : t.state = TimerState.Running
      · refine ⟨fun _ => ?_, fun _ => ?_⟩
        · simpa [PomodoroTimer.pause, hs] using ih1 (by simp [hs])
        · simp [PomodoroTimer.pause, hs]
      · simpa [PomodoroTimer.pause, hs] using ⟨ih1, ih2⟩
  | resume t now _ ih =>
      rcases ih with ⟨ih1, ih2⟩
      by_cases hs : t.state = TimerState.Paused
      · have h1 : t.start_time ≠ none := ih1 (by simp [hs])
        have h2 : t.pause_time ≠ none := ih2 hs
        rcases hst : t.start_time with _ | s
        · exact absurd hst h1
        rcases hpt : t.pause_time with _ | p
        · exact absurd hpt h2
        refine ⟨fun _ => ?_, fun h => ?_⟩
        · simp [PomodoroTimer.resume, hs, hst, hpt]
        · simp [PomodoroTimer.resume, hs, hst, hpt] at h
      · simpa [PomodoroTimer.resume, hs] using ⟨ih1, ih2⟩
  | reset t now _ _ =>
      by_cases hs : t.state = TimerState.Stopped
      · refine ⟨fun _ => ?_, fun h => ?_⟩
        · simp [PomodoroTimer.reset, hs]
        · simp [PomodoroTimer.reset, hs] at h
      · refine ⟨fun _ => ?_, fun h => ?_⟩
        · simp [PomodoroTimer.reset, hs]
        · simp [PomodoroTimer.reset, hs] at h
  | switch_to_work t now _ _ =>
      by_cases hs : t.state = TimerState.Stopped
      · refine ⟨fun _ => by simp [PomodoroTimer.switch_to_work, PomodoroTimer.reset, hs],
          fun h => ?_⟩
        simp [PomodoroTimer.switch_to_work, PomodoroTimer.reset, hs] at h
      · refine ⟨fun _ => by simp [PomodoroTimer.switch_to_work, PomodoroTimer.reset, hs],
          fun h => ?_⟩
        simp [PomodoroTimer.switch_to_work, PomodoroTimer.reset, hs] at h
  | switch_to_break t now _ _ =>
      by_cases hs : t.state = TimerState.Stopped
      · refine ⟨fun _ => by simp [PomodoroTimer.switch_to_break, PomodoroTimer.reset, hs],
          fun h => ?_⟩
        simp [PomodoroTimer.switch_to_break, PomodoroTimer.reset, hs] at h
      · refine ⟨fun _ => by simp [PomodoroTimer.switch_to_break, PomodoroTimer.reset, hs],
          fun h => ?_⟩
        simp [PomodoroTimer.switch_to_break, PomodoroTimer.reset, hs] at h

/-- C1: for every reachable timer state, `elapsed` returns accumulated time
plus `now - phase_start` when Running, accumulated plus
`pause_instant - phase_start` (independent of `now`) when Paused, and the
accumulated time alone when Stopped. -/
theorem elapsed_formula {t : PomodoroTimer} (h : Reachable t) (now : Nat) :
    (t.state = TimerState.Running →
      ∃ s, t.start_time = some s ∧
        t.elapsed now = t.elapsed_before_pause + (now - s)) ∧
    (t.state = TimerState.Paused →
      ∃ s p, t.start_time = some s ∧ t.pause_time = some p ∧
        t.elapsed now = t.elapsed_before_pause + (p - s)) ∧
    (t.state = TimerState.Stopped → t.elapsed now = t.elapsed_before_pause) := by
  obtain ⟨h1, h2⟩ := timerInv_of_reachable h
  refine ⟨fun hr => ?_, fun hp => ?_, fun hs => ?_⟩
  · rcases hst : t.start_time with _ | s
    · exact absurd hst (h1 (by simp [hr]))
    · exact ⟨s, rfl, by simp [PomodoroTimer.elapsed, hr, hst]⟩
  · rcases hst : t.start_time with _ | s
    · exact absurd hst (h1 (by simp [hp]))
    rcases hpt : t.pause_time with _ | p
    · exact absurd hpt (h2 hp)
    exact ⟨s, p, rfl, rfl, by simp [PomodoroTimer.elapsed, hp, hst, hpt]⟩
  · rcases hst : t.start_time with _ | s <;> rcases hpt : t.pause_time with _ | p <;>
      simp [PomodoroTimer.elapsed, hs, hst, hpt]

/-- Witness for C1 at the fresh timer (a Stopped state) and instant 7. -/
theorem elapsed_formula_witness :
    (PomodoroTimer.new 25 5).elapsed 7 =
      (PomodoroTimer.new 25 5).elapsed_before_pause :=
  (elapsed_formula (Reachable.new 25 5) 7).2.2 rfl

/-- C2 counterexample: calling `start` on a paused timer does NOT clear
`pause_time`; after `start; pause; start` the timer is Running while
`pause_time` still holds the old pause instant. -/
theorem start_clears_pause_cex :
    ((((PomodoroTimer.new 25 5).start 0).pause 1).start 2).pause_time = some 1 ∧
    ¬ ((((PomodoroTimer.new 25 5).start 0).pause 1).start 2).pause_time = none ∧
    ((((PomodoroTimer.new 25 5).start 0).pause 1).start 2).state =
      TimerState.Running := by
  decide

/-- C2 amended: for every timer in any state, `start` moves `run_state` to
Running, sets `phase_start` to the current instant and zeroes the
accumulated time, but leaves `pause_instant` unchanged (it is not
cleared). -/
theorem start_spec (t : PomodoroTimer) (now : Nat) :
    (t.start now).state = TimerState.Running ∧
    (t.start now).start_time = some now ∧
    (t.start now).elapsed_before_pause = 0 ∧
    (t.start now).pause_time = t.pause_time := by
  simp [PomodoroTimer.start]

/-- C3 counterexample: the reachable state produced by `start; pause; start`
has `pause_time` set while `run_state` is Running, refuting the claimed
iff. -/
theorem pause_some_iff_paused_cex :
    Reachable ((((PomodoroTimer.new 25 5).start 0).pause 1).start 2) ∧
    ((((PomodoroTimer.new 25 5).start 0).pause 1).start 2).pause_time ≠ none ∧
    ¬ ((((PomodoroTimer.new 25 5).start 0).pause 1).start 2).state =
        TimerState.Paused :=
  ⟨Reachable.start _ 2 (Reachable.pause _ 1
      (Reachable.start _ 0 (Reachable.new 25 5))),
    by decide, by decide⟩

/-- C3 amended: in every reachable state, `run_state = Paused` implies
`pause_time` is Some; the converse direction of the claimed iff fails
(see the counterexample). -/
theorem paused_pause_time_some {t : PomodoroTimer} (h : Reachable t)
    (hp : t.state = TimerState.Paused) : t.pause_time ≠ none :=
  (timerInv_of_reachable h).2 hp

/-- Witness for the amended C3 at the reachable paused state
`start 0; pause 1`. -/
theorem paused_pause_time_some_witness :
    (((PomodoroTimer.new 25 5).start 0).pause 1).pause_time ≠ none :=
  paused_pause_time_some
    (Reachable.pause _ 1 (Reachable.start _ 0 (Reachable.new 25 5)))
    (by decide)

/-- C10: in every reachable state, Running or Paused implies `start_time` is
Some, and Paused implies `pause_time` is Some, so the Running and Paused
match arms of `elapsed` apply in those states. -/
theorem reachable_option_inv {t : PomodoroTimer} (h : Reachable t) :
    ((t.state = TimerState.Running ∨ t.state = TimerState.Paused) →
      t.start_time.isSome = true) ∧
    (t.state = TimerState.Paused → t.pause_time.isSome = true) := by
  obtain ⟨h1, h2⟩ := timerInv_of_reachable h
  constructor
  · intro hrp
    have hne : t.start_time ≠ none := by
      rcases hrp with hr | hp
      · exact h1 (by simp [hr])
      · exact h1 (by simp [hp])
    exact Option.isSome_iff_ne_none.mpr hne
  · intro hp
    exact Option.isSome_iff_ne_none.mpr (h2 hp)

/-- Witness for C10 at the reachable paused state `start 0; pause 1`. -/
theorem reachable_option_inv_witness :
    (((PomodoroTimer.new 25 5).start 0).pause 1).start_time.isSome = true ∧
    (((PomodoroTimer.new 25 5).start 0).pause 1).pause_time.isSome = true :=
  ⟨(reachable_option_inv (Reachable.pause _ 1
        (Reachable.start _ 0 (Reachable.new 25 5)))).1 (Or.inr (by decide)),
    (reachable_option_inv (Reachable.pause _ 1
        (Reachable.start _ 0 (Reachable.new 25 5)))).2 (by decide)⟩

/-- C4: on a Running timer, `pause` at instant tp followed by `resume` at
any later instant tr restores `elapsed`: its value immediately after the
resume equals its value immediately before the pause, independently of the
clock time spent paused. -/
theorem pause_resume_restores_elapsed (t : PomodoroTimer) (tp tr : Nat)
    (hr : t.state = TimerState.Running) :
    ((t.pause tp).resume tr).elapsed tr = t.elapsed tp := by
  rcases hst : t.start_time with _ | s <;> rcases hpt : t.pause_time with _ | p <;>
    simp [PomodoroTimer.pause, PomodoroTimer.resume, PomodoroTimer.elapsed,
      hr, hst, hpt]

/-- Witness for C4: start at 0, pause at 3, resume at 10. -/
theorem pause_resume_restores_elapsed_witness :
    ((((PomodoroTimer.new 25 5).start 0).pause 3).resume 10).elapsed 10 =
      ((PomodoroTimer.new 25 5).start 0).elapsed 3 :=
  pause_resume_restores_elapsed ((PomodoroTimer.new 25 5).start 0) 3 10
    (by decide)

/-- C5: `elapsed` is monotone in the clock while the timer is Running, and
is frozen (independent of the clock) while the timer is Paused. -/
theorem elapsed_monotone_and_frozen (t : PomodoroTimer) (t1 t2 : Nat) :
    (t.state = TimerState.Running → t1 ≤ t2 → t.elapsed t1 ≤ t.elapsed t2) ∧
    (t.state = TimerState.Paused → t.elapsed t1 = t.elapsed t2) := by
  constructor
  · intro hr h12
    rcases hst : t.start_time with _ | s <;>
      simp only [PomodoroTimer.elapsed, hr, hst] <;> omega
  · intro hp
    rcases hst : t.start_time with _ | s <;> rcases hpt : t.pause_time with _ | p <;>
      simp [PomodoroTimer.elapsed, hp, hst, hpt]

/-- Witness for C5 on a Running timer at instants 2 and 5. -/
theorem elapsed_monotone_and_frozen_witness :
    ((PomodoroTimer.new 25 5).start 0).elapsed 2 ≤
      ((PomodoroTimer.new 25 5).start 0).elapsed 5 :=
  (elapsed_monotone_and_frozen ((PomodoroTimer.new 25 5).start 0) 2 5).1
    (by decide) (by decide)

/-- C6: `is_complete` is false exactly when `elapsed` is below `total_time`
and true exactly when `elapsed` has reached it, including the exact
boundary; `total_time` is the work duration in the Work phase and the
break duration in the Break phase. -/
theorem is_complete_boundary (t : PomodoroTimer) (now : Nat) :
    (t.is_complete now = false ↔ t.elapsed now < t.total_time) ∧
    (t.is_complete now = true ↔ t.total_time ≤ t.elapsed now) ∧
    (t.elapsed now = t.total_time → t.is_complete now = true) ∧
    (t.timer_type = TimerType.Work → t.total_time = t.work_duration) ∧
    (t.timer_type = TimerType.Break → t.total_time = t.break_duration) := by
  refine ⟨?_, ?_, fun h => ?_, fun h => ?_, fun h => ?_⟩
  · simp [PomodoroTimer.is_complete]
  · simp [PomodoroTimer.is_complete]
  · simp [PomodoroTimer.is_complete, h]
  · simp [PomodoroTimer.total_time, h]
  · simp [PomodoroTimer.total_time, h]

/-- Witness for C6 at the exact boundary: work total 5, elapsed exactly 5. -/
theorem is_complete_boundary_witness :
    ((PomodoroTimer.new 5 3).start 0).is_complete 5 = true :=
  (is_complete_boundary ((PomodoroTimer.new 5 3).start 0) 5).2.2.1 (by decide)

/-- C7: `reset` rearms `phase_start` to the current instant, clears
`pause_instant`, zeroes the accumulated time, makes `elapsed` zero
immediately afterwards, moves Running or Paused timers to Running and
leaves Stopped timers Stopped. -/
theorem reset_spec (t : PomodoroTimer) (now : Nat) :
    (t.reset now).start_time = some now ∧
    (t.reset now).pause_time = none ∧
    (t.reset now).elapsed_before_pause = 0 ∧
    (t.reset now).elapsed now = 0 ∧
    (t.state ≠ TimerState.Stopped → (t.reset now).state = TimerState.Running) ∧
    (t.state = TimerState.Stopped → (t.reset now).state = TimerState.Stopped) := by
  by_cases hs : t.state = TimerState.Stopped <;>
    simp [PomodoroTimer.reset, PomodoroTimer.elapsed, hs]

/-- Witness for C7: resetting a Running timer at instant 4. -/
theorem reset_spec_witness :
    (((PomodoroTimer.new 25 5).start 0).reset 4).elapsed 4 = 0 ∧
    (((PomodoroTimer.new 25 5).start 0).reset 4).state = TimerState.Running :=
  ⟨(reset_spec ((PomodoroTimer.new 25 5).start 0) 4).2.2.2.1,
    (reset_spec ((PomodoroTimer.new 25 5).start 0) 4).2.2.2.2.1 (by decide)⟩

/-- C8: `switch_to_work` (resp. `switch_to_break`) sets the phase to Work
(resp. Break) and performs exactly the rearm of `reset`: fresh
`phase_start`, zero accumulated time, cleared pause; when invoked while
Running the new phase is Running with `elapsed` zero. -/
theorem switch_spec (t : PomodoroTimer) (now : Nat) :
    ((t.switch_to_work now).timer_type = TimerType.Work ∧
      (t.switch_to_break now).timer_type = TimerType.Break) ∧
    (t.switch_to_work now =
        PomodoroTimer.reset { t with timer_type := TimerType.Work } now ∧
      t.switch_to_break now =
        PomodoroTimer.reset { t with timer_type := TimerType.Break } now) ∧
    ((t.switch_to_work now).start_time = some now ∧
      (t.switch_to_work now).elapsed_before_pause = 0 ∧
      (t.switch_to_work now).pause_time = none) ∧
    ((t.switch_to_break now).start_time = some now ∧
      (t.switch_to_break now).elapsed_before_pause = 0 ∧
      (t.switch_to_break now).pause_time = none) ∧
    (t.state = TimerState.Running →
      (t.switch_to_work now).state = TimerState.Running ∧
      (t.switch_to_work now).elapsed now = 0 ∧
      (t.switch_to_break now).state = TimerState.Running ∧
      (t.switch_to_break now).elapsed now = 0) := by
  by_cases hs : t.state = TimerState.Stopped <;>
    simp [PomodoroTimer.switch_to_work, PomodoroTimer.switch_to_break,
      PomodoroTimer.reset, PomodoroTimer.elapsed, hs]

/-- Witness for C8: switching to Break at instant 2 from a Running timer. -/
theorem switch_spec_witness :
    (((PomodoroTimer.new 25 5).start 0).switch_to_break 2).state =
        TimerState.Running ∧
    (((PomodoroTimer.new 25 5).start 0).switch_to_break 2).elapsed 2 = 0 := by
  have h := (switch_spec ((PomodoroTimer.new 25 5).start 0) 2).2.2.2.2 (by decide)
  exact ⟨h.2.2.1, h.2.2.2⟩

/-- C9: a second consecutive `pause` is a no-op (any starting state), and
`resume` on a Running or Stopped timer leaves the whole state unchanged. -/
theorem pause_resume_idempotent (t : PomodoroTimer) (n1 n2 : Nat) :
    (t.pause n1).pause n2 = t.pause n1 ∧
    (t.state = TimerState.Running → t.resume n1 = t) ∧
    (t.state = TimerState.Stopped → t.resume n1 = t) := by
  refine ⟨?_, fun hr => ?_, fun hs => ?_⟩
  · by_cases hr : t.state = TimerState.Running <;>
      simp [PomodoroTimer.pause, hr]
  · simp [PomodoroTimer.resume, hr]
  · simp [PomodoroTimer.resume, hs]

/-- Witness for C9: double pause after `start 0`, and `resume` on the
just-started (Running) timer. -/
theorem pause_resume_idempotent_witness :
    (((PomodoroTimer.new 25 5).start 0).pause 1).pause 2 =
      ((PomodoroTimer.new 25 5).start 0).pause 1 ∧
    ((PomodoroTimer.new 25 5).start 0).resume 3 =
      (PomodoroTimer.new 25 5).start 0 :=
  ⟨(pause_resume_idempotent ((PomodoroTimer.new 25 5).start 0) 1 2).1,
    (pause_resume_idempotent ((PomodoroTimer.new 25 5).start 0) 3 3).2.1
      (by decide)⟩
